import Mathlib

/-!
# Verification of the ai-restaurant-calls voice ordering core

A shallow embedding of the repository's real-time voice ordering pipeline:

* `apps/api/src/routes/twilio.ts` — menu normalization and matching
  (`normalizeKey`, `findMenuMatch`), LLM-output sanitization (`sanitizeTurn`),
  confirmation keyword parsing (`parseConfirmation`), the per-turn state
  machine (`processTranscriptTurn` and the `/twilio/converse` handler) and
  order persistence (`completeOrder`);
* `apps/media-ws/src/index.ts` — the mu-law audio decoder
  (`mulawToPcm16Sample`), RMS-based barge-in detection and the cancellable
  playback loop (`playTwilioUlaw`);
* the Deepgram agent tool route's `confirm_order` total computation.

JavaScript strings are modelled as Lean `String`s (lists of characters);
JavaScript numbers reachable in these code paths are modelled as exact
rationals plus explicit NaN/Infinity markers where `Number` coercions can
produce them.  Machine arithmetic in the mu-law decoder is over `Nat`/`Int`
with the source's masks written out.
-/

namespace RestCalls

/-! ## JavaScript character and string primitives -/

/-- ASCII lowercasing, as `String.prototype.toLowerCase` acts on the ASCII
range (the only range the dialog code feeds it). -/
def jsToLower (c : Char) : Char := c.toLower

/-- The characters JavaScript's `\s` class (and `String.prototype.trim`)
treats as whitespace, restricted to the code points that can occur here. -/
def isJsWs (c : Char) : Bool :=
  c = ' ' ∨ c = '\t' ∨ c = '\n' ∨ c = '\r' ∨ c = '\x0b' ∨ c = '\x0c' ∨
    c = ' ' ∨ c = '﻿'

/-- Embeds `String.prototype.trim`: strip leading and trailing whitespace. -/
def jsTrimList (l : List Char) : List Char :=
  ((l.dropWhile isJsWs).reverse.dropWhile isJsWs).reverse

def jsTrim (s : String) : String := ⟨jsTrimList s.data⟩

/-- One pass of `replace(/\s+/g, ' ')`: every maximal whitespace run becomes
a single space.  The boolean argument records whether the previous kept
character closed a whitespace run. -/
def collapseWsAux : Bool → List Char → List Char
  | _, [] => []
  | prevWs, c :: rest =>
    if isJsWs c then
      if prevWs then collapseWsAux true rest
      else ' ' :: collapseWsAux true rest
    else c :: collapseWsAux false rest

def collapseWs (l : List Char) : List Char := collapseWsAux false l

/-- Embeds `normalizeKey` from `twilio.ts`:
`value.toLowerCase().replace(/[^a-z0-9\s]/g, '').replace(/\s+/g, ' ').trim()`. -/
def normalizeKey (s : String) : String :=
  let lowered := s.data.map jsToLower
  let stripped := lowered.filter fun c =>
    ('a' ≤ c ∧ c ≤ 'z') ∨ ('0' ≤ c ∧ c ≤ '9') ∨ isJsWs c
  ⟨jsTrimList (collapseWs stripped)⟩

/-- Embeds `sanitizeSpeechReply` from `twilio.ts`: collapse whitespace, trim,
substitute the default sentence when empty, and truncate to 260 units. -/
def sanitizeSpeechReply (reply : String) : String :=
  let trimmed : List Char := jsTrimList (collapseWs reply.data)
  if trimmed = [] then "Please share your order items, your name, and your pickup time."
  else ⟨trimmed.take 260⟩

/-! ## Regex word-boundary matching for `parseConfirmation`

`/\b(w1|…|wn)\b/.test(s)` holds iff some alternative occurs in `s` with a
word boundary on each side.  Every alternative used by the code starts and
ends with a letter, so `\b` amounts to: the neighbouring character (when
there is one) is not a word character `[A-Za-z0-9_]`. -/

def isWordChar (c : Char) : Bool :=
  ('a' ≤ c ∧ c ≤ 'z') ∨ ('A' ≤ c ∧ c ≤ 'Z') ∨ ('0' ≤ c ∧ c ≤ '9') ∨ c = '_'

/-- Does `pat` occur in `s` starting at index `i`? -/
def matchListAt (s pat : List Char) (i : ℕ) : Bool :=
  (s.drop i).take pat.length == pat

/-- Embeds `/\bpat\b/.test(s)` for a pattern whose first and last characters are
word characters. -/
def testWordBounded (pat : List Char) (s : List Char) : Bool :=
  (List.range (s.length + 1)).any fun i =>
    matchListAt s pat i &&
      (i == 0 || !isWordChar (s.getD (i - 1) ' ')) &&
      (s.length ≤ i + pat.length || !isWordChar (s.getD (i + pat.length) ' '))

/-- Embeds `/\b(a1|…|an)\b/.test(s)`: some alternative matches somewhere. -/
def testWordAlternatives (alts : List String) (s : List Char) : Bool :=
  alts.any fun a => testWordBounded a.data s

inductive Confirmation where
  | yes
  | no
  | unknown
  deriving DecidableEq, Repr

/-- The affirmative alternatives of `parseConfirmation`. -/
def yesWords : List String := ["yes", "correct", "confirm", "right", "yep", "yeah"]

/-- The negative alternatives of `parseConfirmation`. -/
def noWords : List String := ["no", "wrong", "change", "not correct", "nah"]

/-- Embeds `parseConfirmation` from `twilio.ts`: lowercase the utterance, test the
affirmative word list first, then the negative word list, else `unknown`. -/
def parseConfirmation (text : String) : Confirmation :=
  let normalized := text.data.map jsToLower
  if testWordAlternatives yesWords normalized then .yes
  else if testWordAlternatives noWords normalized then .no
  else .unknown

/-! ## The mu-law decoder (`apps/media-ws/src/index.ts`) -/

/-- Embeds `mulawToPcm16Sample` from `media-ws`: for a byte `b`,
invert the bits, split into sign / exponent / mantissa, rebuild
`sample = ((mantissa << 4) + 0x08) << exponent`, then
`pcm = sign ? 0x84 - sample : sample - 0x84`, clamped to the 16-bit range. -/
def mulawToPcm16Sample (b : ℕ) : ℤ :=
  let mu : ℕ := (255 - b % 256)       -- (~muLawByte) & 0xff
  let sign : ℕ := mu &&& 0x80
  let exponent : ℕ := (mu >>> 4) &&& 0x07
  let mantissa : ℕ := mu &&& 0x0f
  let sample : ℕ := ((mantissa <<< 4) + 0x08) <<< exponent
  let pcm : ℤ := if sign ≠ 0 then (0x84 : ℤ) - sample else (sample : ℤ) - 0x84
  max (-32768) (min 32767 pcm)

/-- The decoding algorithm exactly as the claim's sentence describes it, with
the bias of its formula left as a parameter: invert the bits, extract
sign/exponent/mantissa, reconstruct the magnitude as
`((mantissa << 4) + bias) << exponent`, clamp it to `[-32768, 32767]`, and
apply the sign.  (No subtraction of `0x84` appears in this description.) -/
def claimedMulawDecode (bias : ℕ) (b : ℕ) : ℤ :=
  let mu : ℕ := (255 - b % 256)
  let sign : ℕ := mu &&& 0x80
  let exponent : ℕ := (mu >>> 4) &&& 0x07
  let mantissa : ℕ := mu &&& 0x0f
  let magnitude : ℕ := ((mantissa <<< 4) + bias) <<< exponent
  let clamped : ℤ := max (-32768) (min 32767 (magnitude : ℤ))
  if sign ≠ 0 then -clamped else clamped

/-- The same decoder written with plain division and remainder instead of the
source's bit operations, including the `±(sample - 0x84)` step the code
actually performs. -/
def mulawDecodeArith (b : ℕ) : ℤ :=
  let mu : ℕ := 255 - b % 256
  let mantissa : ℕ := mu % 16
  let exponent : ℕ := mu / 16 % 8
  let sample : ℕ := (16 * mantissa + 8) * 2 ^ exponent
  let pcm : ℤ := if 128 ≤ mu then (132 : ℤ) - sample else (sample : ℤ) - 132
  max (-32768) (min 32767 pcm)

/-! ## JavaScript values produced by `JSON.parse`

`sanitizeTurn` receives an arbitrary `JSON.parse` result.  `Jv` models such
values; `JsNum` additionally carries the NaN/Infinity results that `Number`
coercions can produce.  Lists are inlined as mutual inductives so that every
function below is structurally recursive (and so reduces inside `decide`). -/

inductive JsNum where
  | val (q : ℚ)
  | nan
  | inf
  | ninf
  deriving DecidableEq, Repr

mutual
inductive Jv where
  | null
  | bool (b : Bool)
  | num (n : JsNum)
  | str (s : String)
  | arr (xs : JvList)
  | obj (fs : JvFields)

inductive JvList where
  | nil
  | cons (hd : Jv) (tl : JvList)

inductive JvFields where
  | nil
  | cons (key : String) (val : Jv) (tl : JvFields)
end

/-- Property lookup `fs[k]`; `none` models `undefined`.  A parsed JSON object
has distinct keys, so first-match lookup is exact. -/
def JvFields.lookup : JvFields → String → Option Jv
  | .nil, _ => none
  | .cons key val tl, k => if key = k then some val else tl.lookup k

/-- Embeds `v[k]` for any value: only objects have the properties the code reads
(`items`, `name`, …); on every other value the access yields `undefined`. -/
def Jv.lookup : Jv → String → Option Jv
  | .obj fs, k => fs.lookup k
  | _, _ => none

/-- Embeds `Math.round`: round half toward positive infinity. -/
def jsRound (q : ℚ) : ℤ := ⌊q + 1 / 2⌋

/-- Smallest power of ten clearing the denominator, when one of at most
`10^24` does: such rationals print as finite decimals. -/
def ratDecPow (q : ℚ) : Option ℕ :=
  (List.range 25).find? fun k => (q * (10 : ℚ) ^ k).den == 1

/-- Embeds `String(n)` for a finite JavaScript number.  Exact for integers and for
finite decimals (every value these code paths produce); other rationals and
the `1e21` exponent notation are printed in a fixed fallback form. -/
def jsRatToString (q : ℚ) : String :=
  if q.den = 1 then toString q.num
  else
    match ratDecPow q with
    | some k =>
        let scaled : ℤ := (q * (10 : ℚ) ^ k).num
        let digits := toString scaled.natAbs
        let digits :=
          if digits.length ≤ k then
            (String.mk (List.replicate (k + 1 - digits.length) '0')) ++ digits
          else digits
        (if q < 0 then "-" else "") ++ digits.dropRight k ++ "." ++ digits.takeRight k
    | none => toString q.num ++ "/" ++ toString q.den

def jsNumToString : JsNum → String
  | .val q => jsRatToString q
  | .nan => "NaN"
  | .inf => "Infinity"
  | .ninf => "-Infinity"

mutual
/-- Embeds `String(v)`. -/
def jsStringOf : Jv → String
  | .null => "null"
  | .bool b => if b then "true" else "false"
  | .num n => jsNumToString n
  | .str s => s
  | .arr xs => joinJvArray xs
  | .obj _ => "[object Object]"

/-- Embeds `Array.prototype.toString` = `join(",")`; `null` elements print empty. -/
def joinJvArray : JvList → String
  | .nil => ""
  | .cons hd tl =>
      let s := match hd with
        | .null => ""
        | .bool b => if b then "true" else "false"
        | .num n => jsNumToString n
        | .str s => s
        | .arr ys => joinJvArray ys
        | .obj _ => "[object Object]"
      match tl with
      | .nil => s
      | .cons _ _ => s ++ "," ++ joinJvArray tl
end

def takeDigits (l : List Char) : List Char × List Char :=
  (l.takeWhile (·.isDigit), l.dropWhile (·.isDigit))

def digitsToNat (l : List Char) : ℕ :=
  l.foldl (fun acc c => acc * 10 + (c.toNat - '0'.toNat)) 0

/-- A decimal numeric literal `[+-]? digits? [. digits?]` with at least one
digit, as `Number(string)` accepts. -/
def jsParseDecimal (l : List Char) : Option ℚ :=
  let (sign, rest) : ℚ × List Char :=
    match l with
    | '+' :: r => (1, r)
    | '-' :: r => (-1, r)
    | r => (1, r)
  let (ip, rest1) := takeDigits rest
  match rest1 with
  | [] => if ip = [] then none else some (sign * digitsToNat ip)
  | '.' :: rest2 =>
      let (fp, rest3) := takeDigits rest2
      if rest3 ≠ [] then none
      else if ip = [] ∧ fp = [] then none
      else some (sign * ((digitsToNat ip : ℚ) + (digitsToNat fp : ℚ) / (10 : ℚ) ^ fp.length))
  | _ => none

/-- Embeds `Number(string)`: trim, empty is `0`, signed `Infinity` accepted, else a
decimal literal or NaN.  (Hex/exponent literal forms, which never arise from
the dialog payloads, are not modelled.) -/
def jsParseNumber (s : String) : JsNum :=
  let t := jsTrimList s.data
  if t = [] then .val 0
  else if t = "Infinity".data ∨ t = "+Infinity".data then .inf
  else if t = "-Infinity".data then .ninf
  else
    match jsParseDecimal t with
    | some q => .val q
    | none => .nan

/-- Embeds `Number(v)` on a defined value. -/
def jsToNumber : Jv → JsNum
  | .null => .val 0
  | .bool b => .val (if b then 1 else 0)
  | .num n => n
  | .str s => jsParseNumber s
  | .arr xs => jsParseNumber (joinJvArray xs)
  | .obj _ => .nan

/-- Embeds `toStringValue` from `twilio.ts`: arrays use their first element
(`String(input[0] ?? '')`), `null`/`undefined` become the empty string, and
the result is trimmed. -/
def toStringValue : Option Jv → String
  | none => ""
  | some .null => ""
  | some (.arr .nil) => ""
  | some (.arr (.cons .null _)) => ""
  | some (.arr (.cons v _)) => jsTrim (jsStringOf v)
  | some v => jsTrim (jsStringOf v)

/-- JavaScript truthiness of a possibly-undefined value (`Boolean(v)`). -/
def jsTruthy : Option Jv → Bool
  | none => false
  | some .null => false
  | some (.bool b) => b
  | some (.num (.val q)) => q ≠ 0
  | some (.num .nan) => false
  | some (.num _) => true
  | some (.str s) => s ≠ ""
  | some (.arr _) => true
  | some (.obj _) => true

/-! ## The sanitized dialog turn (`sanitizeTurn` in `twilio.ts`) -/

structure OptionKV where
  name : String
  value : String
  deriving DecidableEq, Repr

structure LlmOrderItem where
  name : String
  quantity : ℚ
  options : List OptionKV
  deriving DecidableEq, Repr

/-- The `OrderTurn` record.  `order_type` is the constant `'pickup'` in every
constructor and is omitted. -/
structure OrderTurn where
  customer_name : Option String
  pickup_time : Option String
  items : List LlmOrderItem
  unknown_items : List String
  estimated_total : ℚ
  is_order_complete : Bool
  assistant_reply : String
  next_question : Option String
  deriving DecidableEq, Repr

def defaultReply : String :=
  "Please share your order items, your name, and your pickup time."

/-- The inner `options` mapping of `sanitizeTurn`: pairs with an empty name
or value are dropped. -/
def sanitizeOptions : JvList → List OptionKV
  | .nil => []
  | .cons o rest =>
      let name := toStringValue (o.lookup "name")
      let value := toStringValue (o.lookup "value")
      let restOut := sanitizeOptions rest
      if name ≠ "" ∧ value ≠ "" then ⟨name, value⟩ :: restOut else restOut

/-- One element of the raw `items` array: `null` when the name is empty;
otherwise the quantity is `Math.round` of a finite positive raw quantity and
`1` in every other case (`Number(row.quantity ?? 1)` with `null` and
`undefined` both defaulting). -/
def sanitizeItem (item : Jv) : Option LlmOrderItem :=
  let name := toStringValue (item.lookup "name")
  if name = "" then none
  else
    let qn : JsNum :=
      match item.lookup "quantity" with
      | none => .val 1
      | some .null => .val 1
      | some v => jsToNumber v
    let options :=
      match item.lookup "options" with
      | some (.arr xs) => sanitizeOptions xs
      | _ => []
    let quantity : ℚ :=
      match qn with
      | .val q => if 0 < q then (jsRound q : ℚ) else 1
      | _ => 1
    some ⟨name, quantity, options⟩

def sanitizeItems : JvList → List LlmOrderItem
  | .nil => []
  | .cons hd tl =>
      match sanitizeItem hd with
      | some it => it :: sanitizeItems tl
      | none => sanitizeItems tl

def sanitizeUnknowns : JvList → List String
  | .nil => []
  | .cons hd tl =>
      let s := toStringValue (some hd)
      let rest := sanitizeUnknowns tl
      if s ≠ "" then s :: rest else rest

/-- Embeds `sanitizeTurn` from `twilio.ts`. -/
def sanitizeTurn (value : Jv) : OrderTurn :=
  let itemsRaw : JvList :=
    match value.lookup "items" with
    | some (.arr xs) => xs
    | _ => .nil
  let unknownRaw : JvList :=
    match value.lookup "unknown_items" with
    | some (.arr xs) => xs
    | _ => .nil
  let cn := toStringValue (value.lookup "customer_name")
  let pt := toStringValue (value.lookup "pickup_time")
  let ar := toStringValue (value.lookup "assistant_reply")
  let nq := toStringValue (value.lookup "next_question")
  let et : JsNum :=
    match value.lookup "estimated_total" with
    | none => .nan
    | some v => jsToNumber v
  { customer_name := if cn = "" then none else some cn
    pickup_time := if pt = "" then none else some pt
    items := sanitizeItems itemsRaw
    unknown_items := sanitizeUnknowns unknownRaw
    estimated_total := match et with | .val q => q | _ => 0
    is_order_complete := jsTruthy (value.lookup "is_order_complete")
    assistant_reply := if ar = "" then defaultReply else ar
    next_question := if nq = "" then none else some nq }

/-- Embeds `fallbackTurn` from `twilio.ts`. -/
def fallbackTurn (assistantReply : String) : OrderTurn :=
  { customer_name := none
    pickup_time := none
    items := []
    unknown_items := []
    estimated_total := 0
    is_order_complete := false
    assistant_reply := assistantReply
    next_question := none }

/-! ## Menu model and matching (`twilio.ts`) -/

structure MenuItem where
  name : String
  basePrice : ℚ
  aliases : List String
  deriving DecidableEq, Repr

/-- Embeds `findMenuMatch` from `twilio.ts`: empty normalized input matches nothing;
otherwise the first exact normalized-name match, else the first item with a
matching normalized alias, else `null`. -/
def findMenuMatch (name : String) (menuItems : List MenuItem) : Option MenuItem :=
  let target := normalizeKey name
  if target = "" then none
  else
    match menuItems.find? (fun item => normalizeKey item.name == target) with
    | some m => some m
    | none => menuItems.find? fun item => item.aliases.any fun a => normalizeKey a == target

/-! ## Call state and the per-turn state machine (`twilio.ts`) -/

inductive GatherStage where
  | GREETING
  | COLLECT_ITEMS
  | COLLECT_NAME
  | COLLECT_PICKUP_TIME
  | CONFIRM_ORDER
  | COMPLETE
  deriving DecidableEq, Repr

structure ValidatedOrderItem where
  name : String
  quantity : ℚ
  unit_price : ℚ
  options : List OptionKV
  deriving DecidableEq, Repr

structure CallState where
  stage : GatherStage
  turnCount : ℕ
  transcriptLines : List String
  customerName : Option String
  customerPhone : String
  pickupTime : Option String
  items : List ValidatedOrderItem
  unknownItems : List String
  awaitingConfirmation : Bool
  restaurantId : String
  restaurantName : String
  strictMenuValidation : Bool
  menuItems : List MenuItem
  deriving DecidableEq, Repr

/-- Truthiness of a `string | null` field: `null` and `''` are falsy. -/
def optTruthy : Option String → Bool
  | none => false
  | some s => s ≠ ""

/-- Embeds `if (newValue) field = newValue`: overwrite only with a truthy value. -/
def updOpt (old upd : Option String) : Option String :=
  match upd with
  | some n => if n = "" then old else some n
  | none => old

/-- Embeds `determineStage` from `twilio.ts`. -/
def determineStage (s : CallState) : GatherStage :=
  if s.awaitingConfirmation then .CONFIRM_ORDER
  else if s.items = [] then .COLLECT_ITEMS
  else if ¬optTruthy s.customerName then .COLLECT_NAME
  else if ¬optTruthy s.pickupTime then .COLLECT_PICKUP_TIME
  else .COMPLETE

/-- Template-literal rendering of a `string | null` field (`null` prints as
the word `null`). -/
def optDisplay (o : Option String) : String := o.getD "null"

/-- Embeds `summarizeItems` from `twilio.ts`. -/
def summarizeItems (items : List ValidatedOrderItem) : String :=
  if items = [] then "no items"
  else String.intercalate ", " (items.map fun i => jsRatToString i.quantity ++ " " ++ i.name)

/-- Embeds `friendlyConfirmReply` from `twilio.ts`. -/
def friendlyConfirmReply (s : CallState) : String :=
  "Great, I have " ++ summarizeItems s.items ++ " for pickup at " ++
    optDisplay s.pickupTime ++ " under " ++ optDisplay s.customerName ++
    ". Does that sound right?"

/-- Embeds `confirmationClosing` from `twilio.ts`. -/
def confirmationClosing (name pickupTime : Option String) : String :=
  let callerName :=
    match name with
    | some n => if jsTrim n ≠ "" then jsTrim n else "there"
    | none => "there"
  let pickup :=
    match pickupTime with
    | some p => if jsTrim p ≠ "" then jsTrim p else "the requested time"
    | none => "the requested time"
  "Perfect, " ++ callerName ++ ". Your pickup order is confirmed for " ++ pickup ++
    ". We will have it ready."

/-- Embeds `Math.max(1, Number(item.quantity || 1))`: the quantity reaching this
point is a finite number, so `|| 1` replaces exactly `0`. -/
def vQty (q : ℚ) : ℚ := max 1 (if q = 0 then 1 else q)

/-- The item-validation loop shared by `processTranscriptTurn` and
`/twilio/converse`: matched items become `ValidatedOrderItem`s; unmatched
names are collected only under strict menu validation. -/
def validateItems : List LlmOrderItem → List MenuItem → Bool → List ValidatedOrderItem × List String
  | [], _, _ => ([], [])
  | item :: rest, menu, strict =>
      let r := validateItems rest menu strict
      match findMenuMatch item.name menu with
      | some m => (⟨m.name, vQty item.quantity, m.basePrice, item.options⟩ :: r.1, r.2)
      | none => if strict then (r.1, item.name :: r.2) else r

/-- The loop appending `llmTurn.unknown_items`: keep non-empty names not
already present. -/
def addUnknowns (acc : List String) : List String → List String
  | [] => acc
  | u :: rest => if u ≠ "" ∧ u ∉ acc then addUnknowns (acc ++ [u]) rest else addUnknowns acc rest

/-- The unknown-item rejection reply, naming up to five example menu items
(`state.menuItems.slice(0, 5)`). -/
def rejectionReply (unknown : List String) (menu : List MenuItem) : String :=
  "Sorry, I could not find " ++ String.intercalate ", " unknown ++
    " on our menu. You can choose items like " ++
    String.intercalate ", " ((menu.take 5).map (·.name)) ++ ". What would you like instead?"

/-- Result of the LLM-merge phase of one turn: the updated state (with the
assistant reply pushed onto the transcript), the reply, and the validated and
unknown item lists the turn computed. -/
structure MergeOut where
  state : CallState
  reply : String
  validated : List ValidatedOrderItem
  unknown : List String
  deriving Repr

/-- The turn logic both handlers share verbatim (`twilio.ts` lines 502–544
and 775–821): merge name/pickup-time, validate items against the menu,
batch-replace `items` when the turn validated at least one, recompute the
stage, then either reject unknown items, move to confirmation, or keep the
sanitized LLM reply. -/
def mergeTurn (s : CallState) (llm : OrderTurn) : MergeOut :=
  let s2 := { s with
    customerName := updOpt s.customerName llm.customer_name
    pickupTime := updOpt s.pickupTime llm.pickup_time }
  let vu := validateItems llm.items s.menuItems s.strictMenuValidation
  let unknown := addUnknowns vu.2 llm.unknown_items
  let s3 := { s2 with items := if vu.1 = [] then s2.items else vu.1, unknownItems := unknown }
  let s4 := { s3 with stage := determineStage s3 }
  if unknown ≠ [] then
    let reply := rejectionReply unknown s.menuItems
    ⟨{ s4 with stage := .COLLECT_ITEMS,
               transcriptLines := s4.transcriptLines ++ ["Assistant: " ++ reply] },
      reply, vu.1, unknown⟩
  else if s4.stage = .COMPLETE then
    let reply := friendlyConfirmReply s4
    ⟨{ s4 with awaitingConfirmation := true, stage := .CONFIRM_ORDER,
               transcriptLines := s4.transcriptLines ++ ["Assistant: " ++ reply] },
      reply, vu.1, unknown⟩
  else
    let reply := sanitizeSpeechReply llm.assistant_reply
    ⟨{ s4 with transcriptLines := s4.transcriptLines ++ ["Assistant: " ++ reply] },
      reply, vu.1, unknown⟩

/-- The order row `completeOrder` inserts (constant fields `status='pending'`
and `ai_confidence=0.9` omitted). -/
structure OrderRecord where
  restaurant_id : String
  customer_name : String
  customer_phone : String
  items_json : List ValidatedOrderItem
  total_price : ℚ
  pickup_time : String
  transcript : String
  deriving DecidableEq, Repr

/-- Embeds `state.items.reduce((sum, item) => sum + item.quantity * item.unit_price, 0)`
from `completeOrder` — note: no rounding. -/
def completeOrderTotal (items : List ValidatedOrderItem) : ℚ :=
  items.foldl (fun sum item => sum + item.quantity * item.unit_price) 0

/-- Embeds `completeOrder` from `twilio.ts`: the persisted order row. -/
def completeOrderRecord (s : CallState) : OrderRecord :=
  { restaurant_id := s.restaurantId
    customer_name := s.customerName.getD "Unknown"
    customer_phone := if s.customerPhone = "" then "unknown" else s.customerPhone
    items_json := s.items
    total_price := completeOrderTotal s.items
    pickup_time := s.pickupTime.getD "as soon as possible"
    transcript := String.intercalate "\n" s.transcriptLines }

/-- Embeds `Number(total.toFixed(2))` from the agent tool route's `confirm_order`
and `build_order`: the total rounded to two decimal places (ties round the
numerator up, as `toFixed` picks the larger candidate). -/
def roundTo2 (q : ℚ) : ℚ := (jsRound (q * 100) : ℚ) / 100

/-- The `total_price` the agent tool route's `confirm_order` persists. -/
def agentConfirmOrderTotal (items : List ValidatedOrderItem) : ℚ :=
  roundTo2 (items.foldl (fun sum i => sum + i.quantity * i.unit_price) 0)

/-- Outcome of `processTranscriptTurn` (the handler behind
`/twilio/realtime-turn` and `/twilio/media-transcript`), once the state has
been loaded: the state written back to the store, the order row persisted (if
any), the spoken reply, and the `saved` flag of the response body. -/
structure ProcessResult where
  savedState : CallState
  persisted : Option OrderRecord
  reply : String
  savedFlag : Bool
  deriving Repr

/-- Embeds `processTranscriptTurn` from `twilio.ts`, as a function of the loaded
state, the caller transcript, and the (sanitized) LLM turn. -/
def processTranscriptTurn (s0 : CallState) (transcript : String) (llm : OrderTurn) :
    ProcessResult :=
  let s1 := { s0 with transcriptLines := s0.transcriptLines ++ ["Customer: " ++ transcript] }
  let m := mergeTurn s1 llm
  if llm.is_order_complete ∧ m.unknown = [] ∧ m.state.items ≠ [] ∧
      optTruthy m.state.customerName ∧ optTruthy m.state.pickupTime then
    { savedState := { m.state with stage := .COMPLETE, awaitingConfirmation := false }
      persisted := some (completeOrderRecord m.state)
      reply := m.reply
      savedFlag := true }
  else
    { savedState := m.state, persisted := none, reply := m.reply, savedFlag := false }

/-- Embeds `MAX_TURNS` from `twilio.ts`. -/
def maxTurns : ℕ := 6

/-- Outcome of one `/twilio/converse` request, given the loaded state:
`state` is the in-memory state when the response is built, `savedState` what
was written back to the store (`none` on the fail-without-saving paths),
`persisted` the order row inserted by `completeOrder` (if any), `reply` the
prompt spoken into the next speech gather (`none` on terminal paths), and
`failed` whether the call was marked failed. -/
structure ConverseResult where
  state : CallState
  savedState : Option CallState
  persisted : Option OrderRecord
  reply : Option String
  failed : Bool
  deriving Repr

/-- The `/twilio/converse` handler from `twilio.ts`, as a function of the
loaded state, the speech result, the caller number, and the (sanitized) LLM
turn used when the handler reaches the extraction phase. -/
def converseTurn (s0 : CallState) (spoken fromPhone : String) (llm : OrderTurn) :
    ConverseResult :=
  let s1 := { s0 with turnCount := s0.turnCount + 1 }
  let s2 := { s1 with customerPhone := if fromPhone = "" then s1.customerPhone else fromPhone }
  if spoken = "" then
    if maxTurns ≤ s2.turnCount then
      { state := s2, savedState := none, persisted := none, reply := none, failed := true }
    else
      { state := s2, savedState := some s2, persisted := none,
        reply := some "I missed that. Please repeat your order details.", failed := false }
  else
    let s3 := { s2 with transcriptLines := s2.transcriptLines ++ ["Customer: " ++ spoken] }
    if s3.awaitingConfirmation ∧ parseConfirmation spoken = .yes then
      let s4 := { s3 with stage := .COMPLETE, awaitingConfirmation := false }
      { state := s4, savedState := some s4, persisted := some (completeOrderRecord s3),
        reply := none, failed := false }
    else
      let s3' :=
        if s3.awaitingConfirmation then
          { s3 with awaitingConfirmation := false,
                    transcriptLines := s3.transcriptLines ++
                      ["Assistant: Okay, let us update your order. Please tell me the correct details."] }
        else s3
      let m := mergeTurn s3' llm
      if maxTurns ≤ m.state.turnCount ∧ m.state.awaitingConfirmation = false then
        { state := m.state, savedState := none, persisted := none, reply := none, failed := true }
      else
        { state := m.state, savedState := some m.state, persisted := none,
          reply := some m.reply, failed := false }

/-! ## The media session and playback cancellation (`media-ws`) -/

/-- The mutable per-call playback fields of a `LiveSession`. -/
structure MediaSession where
  playbackToken : ℕ
  ttsPlaying : Bool
  ended : Bool
  deriving DecidableEq, Repr

/-- Embeds `rmsFromMulawPayload(payload) > 700` without real square roots:
`sqrt(sum/len) > 700  ↔  sum > 700² · len` (and an empty payload has RMS 0). -/
def energyAboveThreshold (payload : List ℕ) : Bool :=
  payload ≠ [] ∧
    (490000 : ℤ) * payload.length < (payload.map fun b => mulawToPcm16Sample b ^ 2).sum

/-- The session-mutating events of the media socket: an inbound caller frame
(barge-in check), Deepgram's `UserStartedSpeaking`, the start of a
`playTwilioUlaw` playback (token bump), and `stop`/socket close. -/
inductive MediaEvt where
  | mediaFrame (payload : List ℕ)
  | userStartedSpeaking
  | playStart
  | stopEvt

inductive OutEvt where
  | clear
  | media
  deriving DecidableEq, Repr

/-- One atomic event-handler step over the session state, with the Twilio
events it emits.  Node's event handlers run to the next await without
interleaving, so each branch is a single transition. -/
def applyEvt (s : MediaSession) : MediaEvt → MediaSession × List OutEvt
  | .mediaFrame payload =>
      if s.ttsPlaying ∧ energyAboveThreshold payload then
        ({ s with playbackToken := s.playbackToken + 1, ttsPlaying := false }, [.clear])
      else (s, [])
  | .userStartedSpeaking =>
      if s.ttsPlaying then
        ({ s with playbackToken := s.playbackToken + 1, ttsPlaying := false }, [.clear])
      else (s, [])
  | .playStart => ({ s with playbackToken := s.playbackToken + 1, ttsPlaying := true }, [])
  | .stopEvt => ({ s with ended := true }, [])

def applyEvts (s : MediaSession) : List MediaEvt → MediaSession
  | [] => s
  | e :: rest => applyEvts (applyEvt s e).1 rest

/-- The guard `playTwilioUlaw` evaluates before sending each frame: the loop
sends a frame under its captured `token` only when the session has not ended
and the session token still equals it. -/
def loopSendsFrame (s : MediaSession) (token : ℕ) : Bool :=
  ¬s.ended ∧ s.playbackToken = token

/-! ## Helper lemmas -/

theorem mergeTurn_turnCount (s : CallState) (llm : OrderTurn) :
    (mergeTurn s llm).state.turnCount = s.turnCount := by
  simp only [mergeTurn]
  split_ifs <;> rfl

theorem mergeTurn_items (s : CallState) (llm : OrderTurn) :
    (mergeTurn s llm).state.items =
      if (validateItems llm.items s.menuItems s.strictMenuValidation).1 = []
      then s.items else (validateItems llm.items s.menuItems s.strictMenuValidation).1 := by
  simp only [mergeTurn]
  split_ifs <;> rfl

theorem mergeTurn_unknown_branch (s : CallState) (llm : OrderTurn)
    (h : addUnknowns (validateItems llm.items s.menuItems s.strictMenuValidation).2
        llm.unknown_items ≠ []) :
    (mergeTurn s llm).state.stage = .COLLECT_ITEMS ∧
    (mergeTurn s llm).reply =
      rejectionReply
        (addUnknowns (validateItems llm.items s.menuItems s.strictMenuValidation).2
          llm.unknown_items) s.menuItems := by
  simp only [mergeTurn]
  rw [if_pos h]
  exact ⟨rfl, rfl⟩

theorem findMenuMatch_mem {n : String} {menu : List MenuItem} {m : MenuItem}
    (h : findMenuMatch n menu = some m) : m ∈ menu := by
  simp only [findMenuMatch] at h
  split_ifs at h with ht
  cases hf : menu.find? (fun item => normalizeKey item.name == normalizeKey n) with
  | some m' =>
      rw [hf] at h
      cases h
      exact List.mem_of_find?_eq_some hf
  | none =>
      rw [hf] at h
      exact List.mem_of_find?_eq_some h

theorem findMenuMatch_sound {n : String} {menu : List MenuItem} {m : MenuItem}
    (h : findMenuMatch n menu = some m) :
    normalizeKey m.name = normalizeKey n ∨
      ∃ a ∈ m.aliases, normalizeKey a = normalizeKey n := by
  simp only [findMenuMatch] at h
  split_ifs at h with ht
  cases hf : menu.find? (fun item => normalizeKey item.name == normalizeKey n) with
  | some m' =>
      rw [hf] at h
      cases h
      exact Or.inl (by simpa using List.find?_some hf)
  | none =>
      rw [hf] at h
      refine Or.inr ?_
      have := List.find?_some h
      simpa using this

theorem findMenuMatch_congr (s t : String) (menu : List MenuItem)
    (h : normalizeKey s = normalizeKey t) :
    findMenuMatch s menu = findMenuMatch t menu := by
  simp only [findMenuMatch, h]

theorem findMenuMatch_exact_priority (n : String) (menu : List MenuItem)
    (hne : normalizeKey n ≠ "")
    (hex : ∃ m ∈ menu, normalizeKey m.name = normalizeKey n) :
    ∃ m, findMenuMatch n menu = some m ∧ normalizeKey m.name = normalizeKey n := by
  simp only [findMenuMatch]
  rw [if_neg hne]
  have hsome : (menu.find? (fun item => normalizeKey item.name == normalizeKey n)).isSome := by
    rw [List.find?_isSome]
    obtain ⟨m, hm, he⟩ := hex
    exact ⟨m, hm, by simp [he]⟩
  obtain ⟨m, hm⟩ := Option.isSome_iff_exists.mp hsome
  rw [hm]
  exact ⟨m, rfl, by simpa using List.find?_some hm⟩

theorem validateItems_fst_mem (items : List LlmOrderItem) (menu : List MenuItem)
    (strict : Bool) :
    ∀ v ∈ (validateItems items menu strict).1,
      ∃ m ∈ menu, v.name = m.name ∧ v.unit_price = m.basePrice := by
  induction items with
  | nil => intro v hv; simp [validateItems] at hv
  | cons item rest ih =>
      intro v hv
      unfold validateItems at hv
      cases hfm : findMenuMatch item.name menu with
      | some m =>
          rw [hfm] at hv
          rcases List.mem_cons.mp hv with rfl | hv'
          · exact ⟨m, findMenuMatch_mem hfm, rfl, rfl⟩
          · exact ih v hv'
      | none =>
          rw [hfm] at hv
          cases strict with
          | false => exact ih v hv
          | true => exact ih v hv

theorem validateItems_notStrict_unknown (items : List LlmOrderItem) (menu : List MenuItem) :
    (validateItems items menu false).2 = [] := by
  induction items with
  | nil => rfl
  | cons item rest ih =>
      unfold validateItems
      cases hfm : findMenuMatch item.name menu with
      | some m => exact ih
      | none => simpa using ih

theorem validateItems_strict_unknown_mem {it : LlmOrderItem} {items : List LlmOrderItem}
    {menu : List MenuItem} (hmem : it ∈ items) (hno : findMenuMatch it.name menu = none) :
    it.name ∈ (validateItems items menu true).2 := by
  induction items with
  | nil => simp at hmem
  | cons item rest ih =>
      unfold validateItems
      rcases List.mem_cons.mp hmem with rfl | hmem'
      · rw [hno]
        simp
      · cases hfm : findMenuMatch item.name menu with
        | some m => exact ih hmem'
        | none => simpa using Or.inr (ih hmem')

theorem addUnknowns_ne_nil (l : List String) :
    ∀ acc : List String, acc ≠ [] → addUnknowns acc l ≠ [] := by
  induction l with
  | nil => intro acc h; simpa [addUnknowns] using h
  | cons u rest ih =>
      intro acc h
      unfold addUnknowns
      split_ifs with hc
      · exact ih (acc ++ [u]) (by simp)
      · exact ih acc h

theorem foldl_price_sum (items : List ValidatedOrderItem) :
    ∀ init : ℚ,
      items.foldl (fun sum item => sum + item.quantity * item.unit_price) init =
        init + (items.map fun i => i.quantity * i.unit_price).sum := by
  induction items with
  | nil => intro init; simp
  | cons item rest ih =>
      intro init
      simp only [List.foldl_cons, List.map_cons, List.sum_cons, ih]
      ring

theorem applyEvt_token_mono (s : MediaSession) (e : MediaEvt) :
    s.playbackToken ≤ (applyEvt s e).1.playbackToken := by
  cases e <;> simp only [applyEvt] <;> (try split_ifs) <;> simp

theorem applyEvts_token_mono (es : List MediaEvt) :
    ∀ s : MediaSession, s.playbackToken ≤ (applyEvts s es).playbackToken := by
  induction es with
  | nil => intro s; exact le_refl _
  | cons e rest ih =>
      intro s
      exact le_trans (applyEvt_token_mono s e) (ih (applyEvt s e).1)

theorem sanitizeItem_sound {item : Jv} {li : LlmOrderItem}
    (h : sanitizeItem item = some li) :
    li.name ≠ "" ∧ ∃ n : ℕ, li.quantity = (n : ℚ) := by
  simp only [sanitizeItem] at h
  split_ifs at h with hname
  rw [Option.some_inj] at h
  subst h
  refine ⟨hname, ?_⟩
  cases hq : (match item.lookup "quantity" with
      | none => JsNum.val 1
      | some Jv.null => JsNum.val 1
      | some v => jsToNumber v) with
  | val q =>
      simp only [hq]
      split_ifs with hpos
      · have h0 : 0 ≤ jsRound q := by
          unfold jsRound
          exact Int.floor_nonneg.mpr (by positivity)
        exact ⟨(jsRound q).toNat, by exact_mod_cast (Int.toNat_of_nonneg h0).symm⟩
      · exact ⟨1, by norm_num⟩
  | nan => simp only [hq]; exact ⟨1, by norm_num⟩
  | inf => simp only [hq]; exact ⟨1, by norm_num⟩
  | ninf => simp only [hq]; exact ⟨1, by norm_num⟩

theorem sanitizeItems_sound :
    ∀ (xs : JvList) (it : LlmOrderItem), it ∈ sanitizeItems xs →
      it.name ≠ "" ∧ ∃ n : ℕ, it.quantity = (n : ℚ)
  | .nil, it, h => by simp [sanitizeItems] at h
  | .cons hd tl, it, h => by
      unfold sanitizeItems at h
      cases hs : sanitizeItem hd with
      | none =>
          rw [hs] at h
          exact sanitizeItems_sound tl it h
      | some li =>
          rw [hs] at h
          rcases List.mem_cons.mp h with rfl | h'
          · exact sanitizeItem_sound hs
          · exact sanitizeItems_sound tl it h'

theorem mergeTurn_unknown (s : CallState) (llm : OrderTurn) :
    (mergeTurn s llm).unknown =
      addUnknowns (validateItems llm.items s.menuItems s.strictMenuValidation).2
        llm.unknown_items := by
  simp only [mergeTurn]
  split_ifs <;> rfl

theorem mergeTurn_items_or (x : CallState) (llm : OrderTurn)
    (menu : List MenuItem) (items0 : List ValidatedOrderItem) (strict : Bool)
    (hm : x.menuItems = menu) (hs : x.strictMenuValidation = strict) (hi : x.items = items0) :
    (mergeTurn x llm).state.items = items0 ∨
    (mergeTurn x llm).state.items = (validateItems llm.items menu strict).1 := by
  subst hm
  subst hs
  subst hi
  rw [mergeTurn_items]
  split_ifs with h
  · exact Or.inl rfl
  · exact Or.inr rfl

theorem processTurn_items_eq (s : CallState) (t : String) (llm : OrderTurn) :
    (processTranscriptTurn s t llm).savedState.items =
      if (validateItems llm.items s.menuItems s.strictMenuValidation).1 = []
      then s.items else (validateItems llm.items s.menuItems s.strictMenuValidation).1 := by
  have hm := mergeTurn_items
    { s with transcriptLines := s.transcriptLines ++ ["Customer: " ++ t] } llm
  by_cases hv : (validateItems llm.items s.menuItems s.strictMenuValidation).1 = []
  · rw [if_pos hv]
    have hm' : (mergeTurn
        { s with transcriptLines := s.transcriptLines ++ ["Customer: " ++ t] }
          llm).state.items = s.items := by
      rw [hm]
      exact if_pos hv
    simp only [processTranscriptTurn]
    split_ifs <;> exact hm'
  · rw [if_neg hv]
    have hm' : (mergeTurn
        { s with transcriptLines := s.transcriptLines ++ ["Customer: " ++ t] }
          llm).state.items =
        (validateItems llm.items s.menuItems s.strictMenuValidation).1 := by
      rw [hm]
      exact if_neg hv
    simp only [processTranscriptTurn]
    split_ifs <;> exact hm'

theorem processTurn_unknown_case (s : CallState) (t : String) (llm : OrderTurn)
    (hne : addUnknowns (validateItems llm.items s.menuItems s.strictMenuValidation).2
        llm.unknown_items ≠ []) :
    (processTranscriptTurn s t llm).reply =
      rejectionReply
        (addUnknowns (validateItems llm.items s.menuItems s.strictMenuValidation).2
          llm.unknown_items) s.menuItems ∧
    (processTranscriptTurn s t llm).savedState.stage = .COLLECT_ITEMS := by
  have hm := mergeTurn_unknown_branch
    { s with transcriptLines := s.transcriptLines ++ ["Customer: " ++ t] } llm hne
  simp only [processTranscriptTurn]
  rw [if_neg ?hc]
  case hc =>
    intro hcond
    exact hne ((mergeTurn_unknown
      { s with transcriptLines := s.transcriptLines ++ ["Customer: " ++ t] } llm).symm.trans
        hcond.2.1)
  exact ⟨hm.2, hm.1⟩

theorem converseTurn_merge (s : CallState) (spoken fromPhone : String) (llm : OrderTurn)
    (hconf : s.awaitingConfirmation = false) (hspoken : spoken ≠ "") :
    (converseTurn s spoken fromPhone llm).state =
      (mergeTurn { s with
          turnCount := s.turnCount + 1
          customerPhone := if fromPhone = "" then s.customerPhone else fromPhone
          transcriptLines := s.transcriptLines ++ ["Customer: " ++ spoken] } llm).state ∧
    ((converseTurn s spoken fromPhone llm).failed = false →
      (converseTurn s spoken fromPhone llm).reply =
        some (mergeTurn { s with
          turnCount := s.turnCount + 1
          customerPhone := if fromPhone = "" then s.customerPhone else fromPhone
          transcriptLines := s.transcriptLines ++ ["Customer: " ++ spoken] } llm).reply) := by
  simp only [converseTurn]
  rw [if_neg hspoken]
  set phone := (if fromPhone = "" then s.customerPhone else fromPhone) with hph
  split_ifs
  all_goals first
    | (exfalso
       have hx : s.awaitingConfirmation = true ∧ parseConfirmation spoken = Confirmation.yes := by
         assumption
       exact Bool.noConfusion (hx.1.symm.trans hconf))
    | (exfalso
       have hx : s.awaitingConfirmation = true := by assumption
       exact Bool.noConfusion (hx.symm.trans hconf))
    | exact ⟨rfl, fun _ => rfl⟩
    | exact ⟨rfl, fun h => False.elim h⟩

theorem converseTurn_items_cases (s : CallState) (spoken fromPhone : String)
    (llm : OrderTurn) :
    (converseTurn s spoken fromPhone llm).state.items = s.items ∨
    (converseTurn s spoken fromPhone llm).state.items =
      (validateItems llm.items s.menuItems s.strictMenuValidation).1 := by
  simp only [converseTurn]
  split_ifs
  all_goals first
    | exact Or.inl rfl
    | exact mergeTurn_items_or _ llm s.menuItems s.items s.strictMenuValidation rfl rfl rfl

/-! ## Concrete fixtures

Small concrete menus, call states and raw LLM outputs used by the
counterexamples and witnesses below. -/

def sampleMenu : List MenuItem :=
  [⟨"Veggie Samosa", mkRat 5 2, ["samosa", "samosas", "veggie samosas"]⟩,
   ⟨"Coca-Cola", 3, ["coke"]⟩]

/-- A call awaiting confirmation of two samosas for Asha. -/
def awaitingState : CallState :=
  { stage := .CONFIRM_ORDER
    turnCount := 3
    transcriptLines := ["Customer: two samosas"]
    customerName := some "Asha"
    customerPhone := "+15550100"
    pickupTime := some "six thirty pm"
    items := [⟨"Veggie Samosa", 2, mkRat 5 2, []⟩]
    unknownItems := []
    awaitingConfirmation := true
    restaurantId := "r1"
    restaurantName := "New Delhi"
    strictMenuValidation := true
    menuItems := sampleMenu }

/-- The same call mid-collection (not awaiting confirmation). -/
def collectState : CallState :=
  { awaitingState with stage := .COLLECT_ITEMS, awaitingConfirmation := false }

/-- A state whose one item has a three-decimal unit price. -/
def chaiState : CallState :=
  { collectState with items := [⟨"Chai", 1, mkRat 201 200, []⟩] }

def cocaColaItem : MenuItem := ⟨"Coca-Cola", 3, ["coke"]⟩

def cokeMenu : List MenuItem := [cocaColaItem]

/-- A raw LLM payload whose items carry fractional quantities 3/2 and 2/5. -/
def rawFractionalTurn : Jv :=
  .obj (.cons "items" (.arr (.cons
    (.obj (.cons "name" (.str "Burger") (.cons "quantity" (.num (.val (mkRat 3 2))) .nil)))
    (.cons (.obj (.cons "name" (.str "Tea") (.cons "quantity" (.num (.val (mkRat 2 5))) .nil)))
      .nil))) .nil)

/-- A sanitized turn extracting one known item (by alias) and one unknown. -/
def mixedTurn : OrderTurn :=
  { customer_name := none
    pickup_time := none
    items := [⟨"coke", 1, []⟩, ⟨"Pepperoni Pizza", 2, []⟩]
    unknown_items := []
    estimated_total := 0
    is_order_complete := false
    assistant_reply := "Got it."
    next_question := none }

/-- The unknown item of `mixedTurn`. -/
def pizzaItem : LlmOrderItem := ⟨"Pepperoni Pizza", 2, []⟩

/-- A media session mid-playback under token 7. -/
def playingSession : MediaSession :=
  { playbackToken := 7, ttsPlaying := true, ended := false }

/-! ## Claims -/

/-- Claim C1 (code bug).  The spec says the negative keyword list
`no|wrong|change|not correct|nah` — in particular the phrase `not correct` —
clears the confirmation flag and continues collecting without persisting.
The code tests the affirmative regex first, and `\bcorrect\b` matches inside
`not correct`, so `parseConfirmation` classifies the utterance as `yes` and
the `/twilio/converse` handler persists the order: the `not correct`
alternative of the negative regex is unreachable.  Evaluated here on the
utterance "that is not correct" against a state awaiting confirmation. -/
theorem notCorrect_classified_yes_and_persists :
    parseConfirmation "that is not correct" = Confirmation.yes ∧
    (converseTurn awaitingState "that is not correct" "" (fallbackTurn defaultReply)).persisted
      = some (completeOrderRecord
          { awaitingState with
            turnCount := 4
            transcriptLines := awaitingState.transcriptLines ++
              ["Customer: that is not correct"] }) ∧
    (converseTurn awaitingState "that is not correct" "" (fallbackTurn defaultReply)).state.stage
      = GatherStage.COMPLETE := by
  refine ⟨by decide, ?_, by decide⟩
  with_unfolding_all decide

/-- Claim C4 (counterexample).  `processTranscriptTurn` — the turn path behind
`/twilio/realtime-turn` and `/twilio/media-transcript` — saves the state with
`turnCount` unchanged: starting from `turnCount = 3` it saves `turnCount = 3`,
not a strictly greater value. -/
theorem processTurn_turnCount_not_increased :
    collectState.turnCount = 3 ∧
    (processTranscriptTurn collectState "two samosas" (fallbackTurn defaultReply)).savedState.turnCount
      = 3 := by
  constructor
  · rfl
  · rw [show (processTranscriptTurn collectState "two samosas"
        (fallbackTurn defaultReply)).savedState.turnCount = collectState.turnCount from ?_]
    · rfl
    · simp only [processTranscriptTurn]
      split_ifs <;> simp [mergeTurn_turnCount]

/-- Claim C4 (amended).  Only the `/twilio/converse` handler increments
`turnCount`: whenever it saves a state, the saved `turnCount` is exactly the
loaded one plus one; `processTranscriptTurn` always saves `turnCount`
unchanged. -/
theorem turnCount_per_path (s : CallState) (transcript spoken fromPhone : String)
    (llm : OrderTurn) :
    (processTranscriptTurn s transcript llm).savedState.turnCount = s.turnCount ∧
    ∀ s', (converseTurn s spoken fromPhone llm).savedState = some s' →
      s'.turnCount = s.turnCount + 1 := by
  constructor
  · simp only [processTranscriptTurn]
    split_ifs <;> simp [mergeTurn_turnCount]
  · intro s' hs'
    simp only [converseTurn] at hs'
    split_ifs at hs' <;>
        (try (injection hs' with hx; subst hx)) <;>
      simp [mergeTurn_turnCount]

/-- Claim C5 (counterexample).  `completeOrder` persists the raw floating sum
with no rounding: for a single item with quantity 1 and unit price 1.005 the
persisted `total_price` is 1.005, while rounding to two decimal places at the
point of persistence would give 1.01. -/
theorem completeOrder_total_unrounded :
    (completeOrderRecord chaiState).total_price = mkRat 201 200 ∧
    roundTo2 (mkRat 201 200) = mkRat 101 100 ∧
    mkRat 201 200 ≠ mkRat 101 100 := by
  refine ⟨?_, by with_unfolding_all decide, by decide⟩
  with_unfolding_all decide

/-- Claim C5 (amended).  `completeOrder` persists the exact, unrounded sum of
`quantity * unit_price` over the validated items; the two-decimal rounding
(`Number(total.toFixed(2))`) happens only in the agent tool route's
`confirm_order`/`build_order` totals. -/
theorem completeOrder_total_exact_sum (s : CallState) :
    (completeOrderRecord s).total_price =
      (s.items.map fun i => i.quantity * i.unit_price).sum ∧
    ∀ items : List ValidatedOrderItem,
      agentConfirmOrderTotal items =
        roundTo2 ((items.map fun i => i.quantity * i.unit_price).sum) := by
  constructor
  · show completeOrderTotal s.items = _
    unfold completeOrderTotal
    simpa using foldl_price_sum s.items 0
  · intro items
    unfold agentConfirmOrderTotal
    rw [foldl_price_sum items 0]
    simp

/-- Claim C6 (counterexample).  The claim reconstructs the magnitude as
`((mantissa<<4)+bias)<<exponent`, clamps, and applies the sign — with no
further bias subtraction.  On byte 255 (sign bit clear, exponent 0,
mantissa 0) that yields the positive value `bias` (8 with the inline bias,
132 with the named `MULAW_BIAS`), while the code returns
`sample - 0x84 = -124`. -/
theorem mulaw_claim_formula_mismatch :
    mulawToPcm16Sample 255 = -124 ∧
    claimedMulawDecode 8 255 = 8 ∧
    claimedMulawDecode 132 255 = 132 ∧
    (-124 : ℤ) ≠ 8 ∧ (-124 : ℤ) ≠ 132 := by
  decide

set_option maxRecDepth 8000 in
/-- Claim C6 (amended).  `mulawToPcm16Sample` inverts the bits, extracts the
sign bit, 3-bit exponent and 4-bit mantissa, reconstructs
`sample = ((mantissa<<4) + 0x08) << exponent`, then subtracts the bias `0x84`
under the sign (`0x84 - sample` when the sign bit is set, `sample - 0x84`
otherwise) and clamps to `[-32768, 32767]`; equivalently, the arithmetic form
`mulawDecodeArith`.  The clamp never binds: every decoded sample lies in
`[-31612, 31612]`. -/
theorem mulaw_decode_characterized :
    ∀ b : Fin 256,
      mulawToPcm16Sample b.val = mulawDecodeArith b.val ∧
      -31612 ≤ mulawToPcm16Sample b.val ∧ mulawToPcm16Sample b.val ≤ 31612 := by
  decide

/-- Claim C7 (confirmed).  `findMenuMatch` works on `normalizeKey`-normalized
strings (lowercase, strip outside `[a-z0-9 ]` plus whitespace, collapse runs,
trim): it is invariant under normalization-equal inputs, any hit is a menu
member reached through an exact normalized-name match or a normalized alias
match, an exact normalized-name match takes priority over aliases, and
concretely `"Coke"`, `"coke!"` and `"COKE"` all match the `"Coca-Cola"` item
via its alias `"coke"`. -/
theorem findMenuMatch_normalized_alias_aware :
    (findMenuMatch "Coke" cokeMenu = some cocaColaItem ∧
     findMenuMatch "coke!" cokeMenu = some cocaColaItem ∧
     findMenuMatch "COKE" cokeMenu = some cocaColaItem) ∧
    (∀ s t : String, ∀ menu : List MenuItem, normalizeKey s = normalizeKey t →
        findMenuMatch s menu = findMenuMatch t menu) ∧
    (∀ (name : String) (menu : List MenuItem) (m : MenuItem),
        findMenuMatch name menu = some m →
        m ∈ menu ∧ (normalizeKey m.name = normalizeKey name ∨
          ∃ a ∈ m.aliases, normalizeKey a = normalizeKey name)) ∧
    (∀ (name : String) (menu : List MenuItem), normalizeKey name ≠ "" →
        (∃ m ∈ menu, normalizeKey m.name = normalizeKey name) →
        ∃ m, findMenuMatch name menu = some m ∧
          normalizeKey m.name = normalizeKey name) := by
  refine ⟨⟨by decide, by decide, by decide⟩, findMenuMatch_congr, ?_,
    findMenuMatch_exact_priority⟩
  intro name menu m h
  exact ⟨findMenuMatch_mem h, findMenuMatch_sound h⟩

/-- Claim C2 (confirmed).  Under strict menu validation, a turn whose
extraction contains an item matching no menu entry or alias replies with the
rejection naming at most five example menu items, sets the stage to
`COLLECT_ITEMS`, and adds no unmatched extraction to `items` (every item of
the resulting state is either a previously validated item or carries the
canonical name and price of a matched menu entry) — on both the
`processTranscriptTurn` path and the `/twilio/converse` path (stated for a
turn that reaches the extraction phase: non-empty speech, not awaiting
confirmation; on `/twilio/converse` the rejection is spoken whenever the call
is not failed for exhausting its turn budget). -/
theorem strict_unknown_item_rejected
    (s : CallState) (llm : OrderTurn) (transcript spoken fromPhone : String)
    (it : LlmOrderItem)
    (hstrict : s.strictMenuValidation = true)
    (hmem : it ∈ llm.items)
    (hno : findMenuMatch it.name s.menuItems = none)
    (hconf : s.awaitingConfirmation = false)
    (hspoken : spoken ≠ "") :
    (processTranscriptTurn s transcript llm).reply =
      rejectionReply
        (addUnknowns (validateItems llm.items s.menuItems s.strictMenuValidation).2
          llm.unknown_items) s.menuItems ∧
    (processTranscriptTurn s transcript llm).savedState.stage = .COLLECT_ITEMS ∧
    (∀ v ∈ (processTranscriptTurn s transcript llm).savedState.items,
        v ∈ s.items ∨ ∃ m ∈ s.menuItems, v.name = m.name ∧ v.unit_price = m.basePrice) ∧
    ((s.menuItems.take 5).map (·.name)).length ≤ 5 ∧
    (converseTurn s spoken fromPhone llm).state.stage = .COLLECT_ITEMS ∧
    (∀ v ∈ (converseTurn s spoken fromPhone llm).state.items,
        v ∈ s.items ∨ ∃ m ∈ s.menuItems, v.name = m.name ∧ v.unit_price = m.basePrice) ∧
    ((converseTurn s spoken fromPhone llm).failed = false →
        (converseTurn s spoken fromPhone llm).reply =
          some (rejectionReply
            (addUnknowns (validateItems llm.items s.menuItems s.strictMenuValidation).2
              llm.unknown_items) s.menuItems)) := by
  have hvne : (validateItems llm.items s.menuItems s.strictMenuValidation).2 ≠ [] := by
    rw [hstrict]
    intro he
    have hm := validateItems_strict_unknown_mem hmem hno
    rw [he] at hm
    exact absurd hm (by simp)
  have hune := addUnknowns_ne_nil llm.unknown_items _ hvne
  obtain ⟨hpr, hps⟩ := processTurn_unknown_case s transcript llm hune
  have hitemsP := processTurn_items_eq s transcript llm
  obtain ⟨hcs, hcr⟩ := converseTurn_merge s spoken fromPhone llm hconf hspoken
  have hmb := mergeTurn_unknown_branch
    { s with
        turnCount := s.turnCount + 1
        customerPhone := if fromPhone = "" then s.customerPhone else fromPhone
        transcriptLines := s.transcriptLines ++ ["Customer: " ++ spoken] } llm hune
  have hitemsOr := converseTurn_items_cases s spoken fromPhone llm
  refine ⟨hpr, hps, ?_, ?_, ?_, ?_, ?_⟩
  · rw [hitemsP]
    split_ifs with hv
    · exact fun v hvmem => Or.inl hvmem
    · exact fun v hvmem => Or.inr (validateItems_fst_mem _ _ _ v hvmem)
  · simp only [List.length_map, List.length_take]
    exact min_le_left _ _
  · rw [hcs]
    exact hmb.1
  · rcases hitemsOr with h | h
    · rw [h]
      exact fun v hvmem => Or.inl hvmem
    · rw [h]
      exact fun v hvmem => Or.inr (validateItems_fst_mem _ _ _ v hvmem)
  · intro hf
    rw [hcr hf, hmb.2]

/-- Claim C2 witness: a strict-validation state over `sampleMenu` with a turn
extracting the alias `"coke"` and the unknown `"Pepperoni Pizza"` ends at
stage `COLLECT_ITEMS` on the `processTranscriptTurn` path. -/
theorem strict_unknown_item_rejected_witness :
    (processTranscriptTurn collectState "a coke and a pepperoni pizza"
      mixedTurn).savedState.stage = .COLLECT_ITEMS :=
  (strict_unknown_item_rejected collectState mixedTurn
    "a coke and a pepperoni pizza" "a coke and a pepperoni pizza" ""
    pizzaItem rfl (by decide) (by decide) rfl (by decide)).2.1

/-- Claim C3 (confirmed).  `items` is batch-replaced, never partially merged:
when the turn's menu-validated item list is empty, both turn paths keep
`CallState.items` exactly as loaded; when it is non-empty, both paths save
exactly the new validated list (stated for turns that reach the extraction
phase on `/twilio/converse`: non-empty speech, not awaiting confirmation). -/
theorem items_batch_replaced
    (s : CallState) (llm : OrderTurn) (transcript spoken fromPhone : String)
    (hconf : s.awaitingConfirmation = false)
    (hspoken : spoken ≠ "") :
    ((validateItems llm.items s.menuItems s.strictMenuValidation).1 = [] →
      (processTranscriptTurn s transcript llm).savedState.items = s.items ∧
      (converseTurn s spoken fromPhone llm).state.items = s.items) ∧
    ((validateItems llm.items s.menuItems s.strictMenuValidation).1 ≠ [] →
      (processTranscriptTurn s transcript llm).savedState.items =
        (validateItems llm.items s.menuItems s.strictMenuValidation).1 ∧
      (converseTurn s spoken fromPhone llm).state.items =
        (validateItems llm.items s.menuItems s.strictMenuValidation).1) := by
  have hcs := (converseTurn_merge s spoken fromPhone llm hconf hspoken).1
  have hitemsP := processTurn_items_eq s transcript llm
  have hitemsC := mergeTurn_items
    { s with
        turnCount := s.turnCount + 1
        customerPhone := if fromPhone = "" then s.customerPhone else fromPhone
        transcriptLines := s.transcriptLines ++ ["Customer: " ++ spoken] } llm
  constructor
  · intro hv
    constructor
    · rw [hitemsP]
      exact if_pos hv
    · rw [hcs, hitemsC]
      exact if_pos hv
  · intro hv
    constructor
    · rw [hitemsP]
      exact if_neg hv
    · rw [hcs, hitemsC]
      exact if_neg hv

/-- Claim C3 witness: `mixedTurn` validates `"coke"` into the canonical
Coca-Cola item, so the saved items are exactly the new validated list. -/
theorem items_batch_replaced_witness :
    (processTranscriptTurn collectState "a coke and a pepperoni pizza"
        mixedTurn).savedState.items =
      (validateItems mixedTurn.items collectState.menuItems
        collectState.strictMenuValidation).1 :=
  ((items_batch_replaced collectState mixedTurn "a coke and a pepperoni pizza"
    "a coke and a pepperoni pizza" "" rfl (by decide)).2 (by decide)).1

/-- Claim C8 (counterexample).  `sanitizeTurn` uses `Math.round`, not a floor,
and rounding a positive value below one half yields `0`, not a positive
integer: a raw item with quantity `3/2` sanitizes to quantity `2` (a floor
would give `1`), and a raw quantity `2/5` sanitizes to `0`, which is not a
positive quantity. -/
theorem sanitizeTurn_round_not_floor :
    ((sanitizeTurn rawFractionalTurn).items.map (·.quantity)) = [2, 0] ∧
    (⌊(mkRat 3 2 : ℚ)⌋ : ℚ) = 1 ∧
    (2 : ℚ) ≠ 1 ∧
    ∃ qv ∈ (sanitizeTurn rawFractionalTurn).items.map (·.quantity), ¬0 < qv := by
  refine ⟨?_, by with_unfolding_all decide, by norm_num, 0, ?_, by norm_num⟩
  · with_unfolding_all decide
  · with_unfolding_all decide

/-- Claim C8 (amended).  `sanitizeTurn` defaults missing optional scalars to
null and missing collections to empty sequences, drops items whose name is
empty after string coercion, and each kept item's quantity is a nonnegative
integer: `Math.round(q)` (half up) when the raw quantity coerces to a finite
positive number — which is `0`, not positive, when `q < 1/2` — and `1` when
the raw quantity is missing, null, non-finite, or non-positive. -/
theorem sanitizeTurn_field_rules (value : Jv) :
    (value.lookup "customer_name" = none → (sanitizeTurn value).customer_name = none) ∧
    (value.lookup "pickup_time" = none → (sanitizeTurn value).pickup_time = none) ∧
    (value.lookup "next_question" = none → (sanitizeTurn value).next_question = none) ∧
    (value.lookup "items" = none → (sanitizeTurn value).items = []) ∧
    (value.lookup "unknown_items" = none → (sanitizeTurn value).unknown_items = []) ∧
    (∀ it ∈ (sanitizeTurn value).items, it.name ≠ "" ∧ ∃ n : ℕ, it.quantity = (n : ℚ)) ∧
    (∀ item : Jv, toStringValue (item.lookup "name") = "" → sanitizeItem item = none) ∧
    (∀ (item : Jv) (li : LlmOrderItem), sanitizeItem item = some li →
      (item.lookup "quantity" = none → li.quantity = 1) ∧
      (item.lookup "quantity" = some .null → li.quantity = 1) ∧
      (∀ q : ℚ, item.lookup "quantity" = some (.num (.val q)) →
        (0 < q → li.quantity = (jsRound q : ℚ)) ∧ (¬0 < q → li.quantity = 1)) ∧
      (item.lookup "quantity" = some (.num .nan) → li.quantity = 1) ∧
      (item.lookup "quantity" = some (.num .inf) → li.quantity = 1)) := by
  refine ⟨?_, ?_, ?_, ?_, ?_, ?_, ?_, ?_⟩
  · intro h
    simp [sanitizeTurn, h, toStringValue]
  · intro h
    simp [sanitizeTurn, h, toStringValue]
  · intro h
    simp [sanitizeTurn, h, toStringValue]
  · intro h
    simp [sanitizeTurn, h, sanitizeItems]
  · intro h
    simp [sanitizeTurn, h, sanitizeUnknowns]
  · intro it hit
    exact sanitizeItems_sound _ it hit
  · intro item h
    simp [sanitizeItem, h]
  · intro item li h
    simp only [sanitizeItem] at h
    split_ifs at h with hname
    rw [Option.some_inj] at h
    subst h
    refine ⟨fun hq => by simp [hq]; norm_num [jsRound],
      fun hq => by simp [hq]; norm_num [jsRound],
      fun q hq => ⟨fun hpos => by simp [hq, jsToNumber, hpos],
        fun hpos => by simp [hq, jsToNumber, hpos]⟩,
      fun hq => by simp [hq, jsToNumber], fun hq => by simp [hq, jsToNumber]⟩

/-- Claim C9 (confirmed).  A caller media frame whose RMS energy exceeds the
voice threshold, arriving while `ttsPlaying` is true, increments
`playbackToken`, emits exactly a `clear` event and stops `ttsPlaying`; and
since every later event can only keep or raise the token, the playback
loop's per-frame guard (token unchanged and session not ended) fails forever
for the stale token — no further frame is sent under it. -/
theorem bargeIn_cancels_stale_playback
    (s : MediaSession) (payload : List ℕ) (token : ℕ)
    (hplaying : s.ttsPlaying = true)
    (henergy : energyAboveThreshold payload = true)
    (htoken : s.playbackToken = token) :
    (applyEvt s (.mediaFrame payload)).1.playbackToken = token + 1 ∧
    (applyEvt s (.mediaFrame payload)).2 = [OutEvt.clear] ∧
    (applyEvt s (.mediaFrame payload)).1.ttsPlaying = false ∧
    ∀ evts : List MediaEvt,
      loopSendsFrame (applyEvts (applyEvt s (.mediaFrame payload)).1 evts) token = false := by
  have hcond : s.ttsPlaying = true ∧ energyAboveThreshold payload = true :=
    ⟨hplaying, henergy⟩
  simp only [applyEvt]
  rw [if_pos hcond]
  refine ⟨by rw [htoken], rfl, rfl, ?_⟩
  intro evts
  have hmono := applyEvts_token_mono evts
    { s with playbackToken := s.playbackToken + 1, ttsPlaying := false }
  simp only [loopSendsFrame, decide_eq_false_iff_not]
  rintro ⟨-, heq⟩
  simp only at hmono
  omega

/-- Claim C9 witness: a frame of one byte `0x00` (decoding to `-31612`, hence
RMS far above 700) during playback under token 7 bumps the token to 8 and
emits `clear`. -/
theorem bargeIn_cancels_stale_playback_witness :
    (applyEvt playingSession (.mediaFrame [0])).1.playbackToken = 7 + 1 ∧
    (applyEvt playingSession (.mediaFrame [0])).2 = [OutEvt.clear] :=
  ⟨(bargeIn_cancels_stale_playback playingSession [0] 7 rfl (by decide) rfl).1,
   (bargeIn_cancels_stale_playback playingSession [0] 7 rfl (by decide) rfl).2.1⟩

/-- Claim C10 (confirmed).  With `strictMenuValidation = false` an extracted
item matching no menu entry or alias is silently dropped: the validation
loop contributes nothing to the unknown list, and — for any value of the
flag — every item the turn stores carries the canonical name and unit price
of some menu item, provided the loaded state already satisfied that
invariant.  Holds on both turn paths. -/
theorem nonStrict_drops_unknowns_items_canonical
    (s : CallState) (llm : OrderTurn) (transcript spoken fromPhone : String)
    (hinv : ∀ v ∈ s.items, ∃ m ∈ s.menuItems, v.name = m.name ∧ v.unit_price = m.basePrice) :
    (s.strictMenuValidation = false →
      (validateItems llm.items s.menuItems s.strictMenuValidation).2 = []) ∧
    (∀ v ∈ (processTranscriptTurn s transcript llm).savedState.items,
      ∃ m ∈ s.menuItems, v.name = m.name ∧ v.unit_price = m.basePrice) ∧
    (∀ v ∈ (converseTurn s spoken fromPhone llm).state.items,
      ∃ m ∈ s.menuItems, v.name = m.name ∧ v.unit_price = m.basePrice) := by
  refine ⟨?_, ?_, ?_⟩
  · intro h
    rw [h]
    exact validateItems_notStrict_unknown llm.items s.menuItems
  · rw [processTurn_items_eq]
    split_ifs with hv
    · exact hinv
    · exact validateItems_fst_mem _ _ _
  · rcases converseTurn_items_cases s spoken fromPhone llm with h | h
    · rw [h]
      exact hinv
    · rw [h]
      exact validateItems_fst_mem _ _ _

/-- Claim C10 witness: starting from `collectState` (whose single item is the
canonical samosa), the items saved by a `processTranscriptTurn` with
`mixedTurn` all carry canonical menu names and prices. -/
theorem nonStrict_drops_unknowns_witness :
    ∃ m ∈ collectState.menuItems,
      (⟨"Coca-Cola", 1, 3, []⟩ : ValidatedOrderItem).name = m.name ∧
      (⟨"Coca-Cola", 1, 3, []⟩ : ValidatedOrderItem).unit_price = m.basePrice :=
  (nonStrict_drops_unknowns_items_canonical collectState mixedTurn
      "a coke" "a coke" "" (by decide)).2.1
    ⟨"Coca-Cola", 1, 3, []⟩ (by with_unfolding_all decide)

end RestCalls
